import Mathlib

/-!
Shallow embedding of `scraper.py` (ICO enforcement-action scraper and tweeter).

Strings are modelled as Lean `String` (a packed `List Char`, matching Python's
code-point semantics for `len`, slicing and `find`).  Python's exceptions are
modelled with `Option`/`Except`.  The sqlite table handled through the
`dataset` collaborator is modelled as a `List Record`, with `upsert`/`find` /
`find_one` given their documented semantics.  Each definition mirrors one
function of the source file.
-/

/-- Python `str.replace(old, new)` on unpacked strings, non-empty pattern case:
scan left to right, replace every non-overlapping occurrence. The `fuel`
argument only drives the recursion; it is always called with `fuel = s.length`,
which suffices because every step consumes at least one character. -/
def pyReplaceAux (pat rep : List Char) : Nat → List Char → List Char
  | _, [] => []
  | 0, s => s
  | fuel + 1, c :: cs =>
    if pat.isPrefixOf (c :: cs) then rep ++ pyReplaceAux pat rep fuel ((c :: cs).drop pat.length)
    else c :: pyReplaceAux pat rep fuel cs

/-- Python `str.replace(old, new)` with the empty pattern inserts `new`
before every character and once at the end. -/
def pyInterleave (rep : List Char) (s : List Char) : List Char :=
  s.foldr (fun c acc => rep ++ c :: acc) rep

/-- Python `s.replace(pat, rep)` (replace all non-overlapping occurrences,
left to right). -/
def pyReplace (s pat rep : String) : String :=
  if pat.data.isEmpty then String.mk (pyInterleave rep.data s.data)
  else String.mk (pyReplaceAux pat.data rep.data s.data.length s.data)

/-- First index `i` in `[start, start + n)` with `p i = true`. -/
def scanFind (p : Nat → Bool) : Nat → Nat → Option Nat
  | _, 0 => none
  | i, n + 1 => if p i then some i else scanFind p (i + 1) n

/-- Python `s.find(sub, 0, stop)` (as an `Option` instead of `-1`): lowest
index of an occurrence of `sub` lying entirely inside the slice `s[0:stop]`. -/
def pyFind (s sub : List Char) (stop : Nat) : Option Nat :=
  scanFind (fun i => sub.isPrefixOf (s.drop i)) 0 (min stop s.length + 1 - sub.length)

/-- Python `sub in s`: does `sub` occur anywhere in `s`? -/
def strContains (s sub : String) : Bool :=
  (List.range (s.data.length + 1)).any (fun i => sub.data.isPrefixOf (s.data.drop i))

/-- Does `sub` occur in `s` entirely inside the slice `s[0:stop]`
(the occurrence must end at or before index `stop`)? -/
def occursWithinB (s sub : List Char) (stop : Nat) : Bool :=
  (List.range (s.length + 1)).any
    (fun i => decide (i + sub.length ≤ min stop s.length) && sub.isPrefixOf (s.drop i))

/-- `ICO_NAMES` from the module level of `scraper.py` (the apostrophes are the
U+2019 characters used by the site). -/
def ICO_NAMES : List String :=
  ["The Information Commissioner’s Office (ICO)",
   "The Information Commissioner’s Office",
   "the Information Commissioner’s Office (ICO)",
   "the Information Commissioner’s Office",
   "the Information Commissioner",
   "the ico",
   "the ICO"]

/-- The long/short Telephone Preference Service names used inline in
`ICOPenaltyScraper._abbreviate_description`. -/
def TPS_NAMES : List String :=
  ["Telephone Preference Service (TPS)",
   "Telephone Preference Service"]

/-- The regulation name collapsed to `PECR` in
`ICOPenaltyScraper._abbreviate_description`. -/
def PECR_NAMES : List String :=
  ["Privacy and Electronic Communications (EC Directive) Regulations 2003"]

/-- `ICOPenaltyScraper.BASE_URL`. -/
def BASE_URL : String := "https://ico.org.uk"

/-- `Tweeter.SHORT_URL_LENGTH`. -/
def SHORT_URL_LENGTH : Nat := 23

/-- `Tweeter.TWEET_LENGTH`. -/
def TWEET_LENGTH : Nat := 140

/-- `replace(long_text, replace_names, with_text)` from `scraper.py`: try the
names in order; the first whose replacement changes the text wins, and the
changed text is returned; otherwise the text is returned unchanged. -/
def replace (long_text : String) (replace_names : List String) (with_text : String) : String :=
  match replace_names with
  | [] => long_text
  | name :: rest =>
    let new := pyReplace long_text name with_text
    if new ≠ long_text then new else replace long_text rest with_text

/-- `capitalize(string)` from `scraper.py`: uppercase the first character and
keep the rest.  Python indexes `string[0]`, which raises `IndexError` on the
empty string; that failure is modelled by `none`. -/
def capitalize (string : String) : Option String :=
  match string.data with
  | [] => none
  | c :: cs => some (String.mk (c.toUpper :: cs))

/-- The total first-character-uppercased form of a string (identity on the
empty string); used to state properties of `capitalize`. -/
def capHead (s : String) : String :=
  match s.data with
  | [] => s
  | c :: cs => String.mk (c.toUpper :: cs)

/-- The `(phrase, replacement)` pairs of `ICOPenaltyScraper._drop_initial_cruft`. -/
def cruftPhrases : List (String × String) :=
  [("has been fined", "fined"), ("has been prosecuted", "prosecuted")]

/-- The loop body of `_drop_initial_cruft`: for each pair in order, look for
the phrase with `description.find(phrase, 0, 100)`; on the first hit return
the replacement verb followed by everything after the phrase. -/
def dropCruftAux (d : List Char) : List (String × String) → Option (List Char)
  | [] => none
  | (phrase, replacement) :: rest =>
    match pyFind d phrase.data 100 with
    | some p => some (replacement.data ++ d.drop (p + phrase.data.length))
    | none => dropCruftAux d rest

/-- `ICOPenaltyScraper._drop_initial_cruft(description)`. -/
def drop_initial_cruft (description : String) : String :=
  match dropCruftAux description.data cruftPhrases with
  | some l => String.mk l
  | none => description

/-- Lift the result of `capitalize` to the pipeline's result: a computed
string is returned, the `IndexError` on the empty string propagates. -/
def capWrap (o : Option String) : Except Unit (Option String) :=
  match o with
  | some y => Except.ok (some y)
  | none => Except.error ()

/-- `ICOPenaltyScraper._abbreviate_description(description)`: cruft removal,
the three alias passes, then `capitalize`.  `none` input (no description)
returns `none`; the `IndexError` raised by `capitalize ""` is `.error ()`. -/
def abbreviate_description (description : Option String) : Except Unit (Option String) :=
  match description with
  | none => Except.ok none
  | some d =>
    let d1 := drop_initial_cruft d
    let d2 := replace d1 ICO_NAMES "the ICO"
    let d3 := replace d2 TPS_NAMES "TPS"
    let d4 := replace d3 PECR_NAMES "PECR"
    capWrap (capitalize d4)

/-- All the literal phrases and names recognised by the abbreviation
pipeline (cruft phrases, organisation-name variants, service names,
regulation names). -/
def triggerStrings : List String :=
  ["has been fined", "has been prosecuted"] ++ ICO_NAMES ++ TPS_NAMES ++ PECR_NAMES

/-- `Tweeter.make_tweet(description, url)`: alias-substitute, guard a leading
`@`, truncate to the 140 - 23 - 1 character budget with an ellipsis, append
the url after a space. -/
def make_tweet (description url : String) : String :=
  let character_budget := TWEET_LENGTH - SHORT_URL_LENGTH - 1
  let d0 := replace description ICO_NAMES "@ICOnews"
  let d1 := if d0.data.head? == some '@' then String.mk ('.' :: d0.data) else d0
  let short_desc :=
    if d1.data.length ≤ character_budget then d1
    else String.mk (d1.data.take (character_budget - 1) ++ ['…'])
  String.mk (short_desc.data ++ ' ' :: url.data)

/-- The error raised by `_parse_pdf_url` when several anchors match
(`RuntimeError('Multiple PDF links: ...')`, the `ExtractionAmbiguity` of the
specification's taxonomy). -/
inductive ExtractionErr where
  | ambiguity : ExtractionErr
deriving DecidableEq

/-- The href pattern of `ICOPenaltyScraper.XPATH_PDF_LINK`: anchors whose
href contains both `/media/action-weve-taken` and `.pdf`. -/
def matchesPdfPattern (href : String) : Bool :=
  strContains href "/media/action-weve-taken" && strContains href ".pdf"

/-- `ICOPenaltyScraper._expand_href(href)`: prefix the base origin when the
href starts with `/`. -/
def expand_href (href : String) : String :=
  if href.data.head? == some '/' then BASE_URL ++ href else href

/-- `ICOPenaltyScraper._parse_pdf_url`: the page's results-region anchors are
given by their hrefs; the XPath keeps those matching the PDF pattern.  Zero
matches: no pdf url (logged only).  Exactly one: its href, absolutised.
More: the extraction fails. -/
def parse_pdf_url (anchors : List String) : Except ExtractionErr (Option String) :=
  match anchors.filter matchesPdfPattern with
  | [] => Except.ok none
  | [href] => Except.ok (some (expand_href href))
  | _ => Except.error ExtractionErr.ambiguity

/-- Characters matched by the `[0-9,]` class of the penalty-amount regex. -/
def digitsComma (c : Char) : Bool :=
  c.isDigit || c == ','

/-- A regex word character (`\w`): alphanumeric or underscore. -/
def isWordChar (c : Char) : Bool :=
  c.isAlphanum || c == '_'

/-- Is there a word boundary (`\b`) between `last` and the following
character (`none` at end of string)? -/
def boundaryAfter (last : Char) (next : Option Char) : Bool :=
  match next with
  | none => isWordChar last
  | some c => isWordChar last != isWordChar c

/-- Is the position after the first `k` characters of `run` a word boundary
(`rest` being the text after the run)? -/
def boundaryOk (run rest : List Char) (k : Nat) : Bool :=
  match (run.drop (k - 1)).head? with
  | some last => boundaryAfter last ((run.drop k).head? <|> rest.head?)
  | none => false

/-- Greedy-with-backtracking length of the `[0-9,]+` group: the largest
`k ∈ [1, run.length]` whose end position is a word boundary. -/
def backtrackLen (run rest : List Char) : Option Nat :=
  ((List.range run.length).map (fun j => run.length - j)).find? (fun k => boundaryOk run rest k)

/-- Scanner of `re.findall(r'£[0-9,]+\b', s)`: at each `£`, take the maximal
digit-and-comma run, backtrack to a word boundary, emit the match and resume
after it; otherwise advance one character.  `fuel` is always at least the
length of the scanned list, so it never truncates the scan. -/
def findAmountsAux : Nat → List Char → List String
  | 0, _ => []
  | _ + 1, [] => []
  | fuel + 1, c :: cs =>
    if c == '£' then
      let run := cs.takeWhile digitsComma
      let rest := cs.dropWhile digitsComma
      match backtrackLen run rest with
      | some k => String.mk ('£' :: run.take k) :: findAmountsAux fuel (run.drop k ++ rest)
      | none => findAmountsAux fuel cs
    else findAmountsAux fuel cs

/-- `re.findall(r'£[0-9,]+\b', s)`. -/
def findAmounts (s : String) : List String :=
  findAmountsAux s.data.length s.data

/-- `ICOPenaltyScraper._parse_penalty_amount(description)`: the unique regex
match, if there is exactly one; otherwise `None` (only logged). -/
def parse_penalty_amount (description : Option String) : Option String :=
  match description with
  | none => none
  | some d =>
    match findAmounts d with
    | [a] => some a
    | _ => none

/-- A freshly extracted record, as returned by
`ICOPenaltyScraper.parse_extra_data_from_penalty_page` (no `tweet_sent` key
yet). -/
structure Row where
  url : String
  pdf_id : Option String
  pdf_url : Option String
  type : Option String
  date : Option Int
  title : Option String
  description : String
  abbreviated_description : Option String
  penalty_amount : Option String
deriving DecidableEq

/-- A stored record of the `data` table (a `Row` plus the `tweet_sent`
flag).  Dates are modelled as integer day numbers: the ISO `YYYY-MM-DD`
strings stored by the code compare lexicographically exactly as their days
compare, and `parse_date` is injective on them. -/
structure Record where
  url : String
  pdf_id : Option String
  pdf_url : Option String
  type : Option String
  date : Option Int
  title : Option String
  description : String
  abbreviated_description : Option String
  penalty_amount : Option String
  tweet_sent : Bool
deriving DecidableEq

/-- Attach a `tweet_sent` value to an extracted row. -/
def Row.withSent (row : Row) (sent : Bool) : Record :=
  { url := row.url, pdf_id := row.pdf_id, pdf_url := row.pdf_url, type := row.type,
    date := row.date, title := row.title, description := row.description,
    abbreviated_description := row.abbreviated_description,
    penalty_amount := row.penalty_amount, tweet_sent := sent }

/-- `table.upsert(r, ['url'])` of the `dataset` collaborator: overwrite the
rows keyed by `r.url` if any exist, otherwise insert. -/
def upsert (store : List Record) (r : Record) : List Record :=
  if store.any (fun s => s.url == r.url) then
    store.map (fun s => if s.url == r.url then r else s)
  else store ++ [r]

/-- `table.find_one(url=u, tweet_sent=True) is not None`. -/
def findSent (store : List Record) (u : String) : Bool :=
  (store.find? (fun s => s.url == u && s.tweet_sent)).isSome

/-- One iteration of the loop in `scrape_enforcements`: read the stored
`tweet_sent` flag for the row's url, attach it, and upsert by url. -/
def scrapeStep (store : List Record) (row : Row) : List Record :=
  upsert store (row.withSent (findSent store row.url))

/-- `scrape_enforcements(table)`, with the lazily yielded rows of
`scraper.run()` given as a list. -/
def scrape_enforcements (store : List Record) (rows : List Row) : List Record :=
  rows.foldl scrapeStep store

/-- Set `tweet_sent = True` on a record (the success path of
`tweet_untweeted`). -/
def markSent (r : Record) : Record :=
  { r with tweet_sent := true }

/-- One iteration of the loop in `tweet_untweeted` over `(record, outcome)`
pairs, where the outcome says whether `tweeter.tweet()` succeeds.  The loop
body opens a transaction; since the only store write inside it is the
success-path upsert, `begin`/`rollback` on failure leaves the committed store
unchanged, and `begin`/`upsert`/`commit` on success commits the marked
record. -/
def tweetStep (acc : List Record × Nat) (item : Record × Bool) : List Record × Nat :=
  if item.2 then (upsert acc.1 (markSent item.1), acc.2)
  else (acc.1, acc.2 + 1)

/-- `tweet_untweeted(untweeted, db, table)`: fold over the selected records,
returning the final committed store and the count of failed tweets. -/
def tweet_untweeted (store : List Record) (items : List (Record × Bool)) : List Record × Nat :=
  items.foldl tweetStep (store, 0)

/-- Ascending comparison on stored dates.  `order_by='date'` sorts the ISO
strings ascending with NULLs first, which is `none` first here. -/
def optDateLE (a b : Option Int) : Bool :=
  match a, b with
  | none, _ => true
  | some _, none => false
  | some x, some y => decide (x ≤ y)

/-- The order used by `table.find(tweet_sent=False, order_by='date')`. -/
def recOrder (a b : Record) : Prop :=
  optDateLE a.date b.date = true

instance : DecidableRel recOrder :=
  fun a b => inferInstanceAs (Decidable (optDateLE a.date b.date = true))

instance : IsTotal Record recOrder :=
  ⟨fun a b => by
    unfold recOrder optDateLE
    cases ha : a.date with
    | none => exact Or.inl rfl
    | some x =>
      cases hb : b.date with
      | none => exact Or.inr rfl
      | some y =>
        rcases Int.le_total x y with h | h
        · exact Or.inl (decide_eq_true h)
        · exact Or.inr (decide_eq_true h)⟩

instance : IsTrans Record recOrder :=
  ⟨fun a b c => by
    unfold recOrder optDateLE
    intro h1 h2
    cases ha : a.date with
    | none => rfl
    | some x =>
      rw [ha] at h1
      cases hb : b.date with
      | none =>
        rw [hb] at h1
        exact Bool.noConfusion h1
      | some y =>
        rw [hb] at h1 h2
        cases hc : c.date with
        | none =>
          rw [hc] at h2
          exact Bool.noConfusion h2
        | some z =>
          rw [hc] at h2
          exact decide_eq_true
            (le_trans (of_decide_eq_true h1) (of_decide_eq_true h2))⟩

/-- The body of the generator `get_untweeted`: walk the date-ordered unsent
rows, parse each stored date (`parse_date` crashes on a missing date, which
is `.error ()`), and keep the rows dated within the last fourteen days. -/
def filterRecent (cutoff : Int) : List Record → Except Unit (List Record)
  | [] => Except.ok []
  | r :: rs =>
    match r.date with
    | none => Except.error ()
    | some d =>
      match filterRecent cutoff rs with
      | Except.error e => Except.error e
      | Except.ok rest => Except.ok (if cutoff ≤ d then r :: rest else rest)

/-- `get_untweeted(table)` with `today` passed explicitly:
`two_weeks_ago = today - 14`, query the unsent rows ordered by date, keep
those with `parse_date(date) >= two_weeks_ago`. -/
def get_untweeted (today : Int) (store : List Record) : Except Unit (List Record) :=
  filterRecent (today - 14) (List.insertionSort recOrder (store.filter (fun r => !r.tweet_sent)))

/-- Concrete description used to exercise the cruft-removal window: ninety
filler characters followed by `has been fined today`, so the trigger phrase
starts at index 90 (inside the first 100 characters) but ends at index 104
(outside them). -/
def cruftCexStr : String :=
  String.mk (List.replicate 90 'a' ++ "has been fined today".data)

/-- A stored record marked as already tweeted, for concrete runs. -/
def sentRecord : Record :=
  { url := "https://ico.org.uk/action-weve-taken/enforcement/acme/",
    pdf_id := some "1", pdf_url := some "https://ico.org.uk/media/action-weve-taken/mpns/1/a.pdf",
    type := some "monetary-penalty", date := some 100, title := some "Acme",
    description := "old text", abbreviated_description := some "Old text",
    penalty_amount := some "£500,000", tweet_sent := true }

/-- A re-extracted row for the same url as `sentRecord`, with every other
field changed. -/
def freshRow : Row :=
  { url := "https://ico.org.uk/action-weve-taken/enforcement/acme/",
    pdf_id := none, pdf_url := none, type := none, date := some 101,
    title := none, description := "new text", abbreviated_description := none,
    penalty_amount := none }

/-- An unsent record dated exactly fourteen days before day 20. -/
def recentRecord : Record :=
  { url := "https://ico.org.uk/action-weve-taken/enforcement/beta/",
    pdf_id := none, pdf_url := none, type := none, date := some 6,
    title := none, description := "beta", abbreviated_description := none,
    penalty_amount := none, tweet_sent := false }

/-- An unsent record too old for the fourteen-day window at day 20. -/
def staleRecord : Record :=
  { url := "https://ico.org.uk/action-weve-taken/enforcement/gamma/",
    pdf_id := none, pdf_url := none, type := none, date := some 1,
    title := none, description := "gamma", abbreviated_description := none,
    penalty_amount := none, tweet_sent := false }

/-- A three-record store for concrete runs of the publish selector. -/
def selectorStore : List Record :=
  [sentRecord, recentRecord, staleRecord]

/-! ### Helper lemmas about the string primitives -/

theorem pyReplaceAux_of_no_match (pat rep : List Char) :
    ∀ (fuel : Nat) (s : List Char), s.length ≤ fuel →
      (∀ i, pat.isPrefixOf (s.drop i) = false) →
      pyReplaceAux pat rep fuel s = s := by
  intro fuel
  induction fuel with
  | zero =>
    intro s hs _
    cases s with
    | nil => rfl
    | cons c cs => simp at hs
  | succ fuel ih =>
    intro s hs hocc
    cases s with
    | nil => rfl
    | cons c cs =>
      have h0 := hocc 0
      simp only [List.drop_zero] at h0
      simp only [pyReplaceAux, h0, Bool.false_eq_true, if_false]
      have : pyReplaceAux pat rep fuel cs = cs := by
        apply ih
        · simpa using Nat.le_of_succ_le_succ hs
        · intro i
          have := hocc (i + 1)
          simpa using this
      rw [this]

theorem strContains_all_drops {s sub : String} (hsub : sub.data ≠ [])
    (h : strContains s sub = false) :
    ∀ i, sub.data.isPrefixOf (s.data.drop i) = false := by
  intro i
  by_cases hi : i ≤ s.data.length
  · unfold strContains at h
    rw [List.any_eq_false] at h
    have hmem : i ∈ List.range (s.data.length + 1) := List.mem_range.mpr (by omega)
    exact Bool.eq_false_iff.mpr (h i hmem)
  · rw [List.drop_eq_nil_of_le (by omega)]
    cases hd : sub.data with
    | nil => exact absurd hd hsub
    | cons c cs => rfl

theorem string_mk_data (s : String) : String.mk s.data = s := rfl

theorem pyReplace_self_of_not_contains (s pat rep : String) (hpat : pat.data ≠ [])
    (h : strContains s pat = false) : pyReplace s pat rep = s := by
  unfold pyReplace
  rw [if_neg (by simpa using hpat)]
  rw [pyReplaceAux_of_no_match pat.data rep.data s.data.length s.data (Nat.le_refl _)
    (strContains_all_drops hpat h)]

theorem pyReplaceAux_ne_nil (pat rep : List Char) (fuel : Nat) (s : List Char)
    (hs : s ≠ []) (hr : rep ≠ []) : pyReplaceAux pat rep fuel s ≠ [] := by
  cases fuel with
  | zero =>
    cases s with
    | nil => exact absurd rfl hs
    | cons c cs => simp [pyReplaceAux]
  | succ fuel =>
    cases s with
    | nil => exact absurd rfl hs
    | cons c cs =>
      simp only [pyReplaceAux]
      by_cases hp : pat.isPrefixOf (c :: cs) = true
      · rw [if_pos hp]
        simp [hr]
      · rw [if_neg hp]
        simp

theorem pyReplace_data_ne_nil (s pat rep : String) (hs : s.data ≠ [])
    (hr : rep.data ≠ []) : (pyReplace s pat rep).data ≠ [] := by
  unfold pyReplace
  by_cases hp : pat.data.isEmpty = true
  · rw [if_pos hp]
    cases hd : s.data with
    | nil => exact absurd hd hs
    | cons c cs =>
      simp [pyInterleave, hd]
  · rw [if_neg hp]
    simpa using pyReplaceAux_ne_nil pat.data rep.data s.data.length s.data hs hr

theorem replace_self_of_not_contains (t a : String) (names : List String)
    (h : ∀ n ∈ names, n.data ≠ [] ∧ strContains t n = false) :
    replace t names a = t := by
  induction names with
  | nil => rfl
  | cons n rest ih =>
    have hn := h n (List.mem_cons_self n rest)
    have heq : pyReplace t n a = t := pyReplace_self_of_not_contains t n a hn.1 hn.2
    simp only [replace, heq, ne_eq, not_true_eq_false, if_false]
    exact ih (fun m hm => h m (List.mem_cons_of_mem n hm))

theorem replace_data_ne_nil (t a : String) (names : List String)
    (ht : t.data ≠ []) (ha : a.data ≠ []) : (replace t names a).data ≠ [] := by
  induction names with
  | nil => exact ht
  | cons n rest ih =>
    simp only [replace]
    by_cases hc : pyReplace t n a ≠ t
    · rw [if_pos hc]
      exact pyReplace_data_ne_nil t n a ht ha
    · rw [if_neg hc]
      exact ih

/-! ### Claim C5: alias substitution -/

/-- Claim C5 counterexample: the alias-substitution step of the source
replaces EVERY occurrence of the first matching organisation-name variant
(Python `str.replace` is global), not only the first occurrence as the claim
states: on input with two occurrences of `the ICO`, both are replaced. -/
theorem claim5_counterexample :
    replace "the ICO and the ICO" ICO_NAMES "@ICOnews" = "@ICOnews and @ICOnews" ∧
    replace "the ICO and the ICO" ICO_NAMES "@ICOnews" ≠ "@ICOnews and the ICO" := by
  constructor
  · decide
  · decide

/-- Claim C5 (amended): the alias-substitution step tries the fixed ordered
list of variants in order and stops at the first variant whose substitution
changes the text (equivalently, with a changing alias, the first variant
occurring in the text); that variant is replaced at EVERY occurrence (Python
`str.replace` semantics, `pyReplace`), at most one variant applied per pass;
a variant that does not occur in the text leaves it unchanged. -/
theorem claim5_alias_substitution (t a : String) (names : List String) :
    (replace t names a =
      match names.find? (fun n => pyReplace t n a != t) with
      | some n => pyReplace t n a
      | none => t) ∧
    (∀ n, n.data ≠ [] → strContains t n = false → pyReplace t n a = t) := by
  constructor
  · induction names with
    | nil => rfl
    | cons n rest ih =>
      by_cases h : pyReplace t n a = t
      · have hb : (pyReplace t n a != t) = false := by simp [h]
        simp only [replace, h, ne_eq, not_true_eq_false, if_false, List.find?, hb,
          bne_self_eq_false]
        exact ih
      · have hb : (pyReplace t n a != t) = true := by simp [h]
        simp only [replace, ne_eq, h, not_false_eq_true, if_true, List.find?, hb]
  · intro n hn hc
    exact pyReplace_self_of_not_contains t n a hn hc

/-- Claim C5 witness: a concrete run of the amended statement, on a text in
which only the variant `the ICO` occurs. -/
theorem claim5_witness :
    replace "by the ICO today" ICO_NAMES "@ICOnews" =
      match ICO_NAMES.find? (fun n => pyReplace "by the ICO today" n "@ICOnews" != "by the ICO today") with
      | some n => pyReplace "by the ICO today" n "@ICOnews"
      | none => "by the ICO today" :=
  (claim5_alias_substitution "by the ICO today" "@ICOnews" ICO_NAMES).1

/-! ### Characterisation of the bounded search `pyFind` -/

theorem scanFind_eq_some_iff (p : Nat → Bool) :
    ∀ (n i r : Nat), scanFind p i n = some r ↔
      (i ≤ r ∧ r < i + n ∧ p r = true ∧ ∀ q, i ≤ q → q < r → p q = false) := by
  intro n
  induction n with
  | zero =>
    intro i r
    constructor
    · intro h; exact Option.noConfusion h
    · rintro ⟨h1, h2, _, _⟩; omega
  | succ n ih =>
    intro i r
    simp only [scanFind]
    by_cases hp : p i = true
    · rw [if_pos hp]
      constructor
      · intro h
        injection h with h
        subst h
        exact ⟨Nat.le_refl _, by omega, hp, fun q hq1 hq2 => by omega⟩
      · rintro ⟨h1, h2, h3, h4⟩
        by_cases hr : r = i
        · subst hr; rfl
        · have := h4 i (Nat.le_refl _) (by omega)
          rw [hp] at this
          exact Bool.noConfusion this
    · rw [if_neg hp]
      rw [ih (i + 1) r]
      have hpf : p i = false := Bool.eq_false_iff.mpr hp
      constructor
      · rintro ⟨h1, h2, h3, h4⟩
        refine ⟨by omega, by omega, h3, fun q hq1 hq2 => ?_⟩
        by_cases hqi : q = i
        · subst hqi; exact hpf
        · exact h4 q (by omega) hq2
      · rintro ⟨h1, h2, h3, h4⟩
        have hri : r ≠ i := by
          intro e
          rw [e] at h3
          exact hp h3
        exact ⟨by omega, by omega, h3, fun q hq1 hq2 => h4 q (by omega) hq2⟩

theorem scanFind_eq_none_iff (p : Nat → Bool) :
    ∀ (n i : Nat), scanFind p i n = none ↔ ∀ q, i ≤ q → q < i + n → p q = false := by
  intro n
  induction n with
  | zero =>
    intro i
    constructor
    · intro _ q h1 h2; omega
    · intro _; rfl
  | succ n ih =>
    intro i
    simp only [scanFind]
    by_cases hp : p i = true
    · rw [if_pos hp]
      constructor
      · intro h; exact Option.noConfusion h
      · intro h
        have := h i (Nat.le_refl _) (by omega)
        rw [hp] at this
        exact Bool.noConfusion this
    · rw [if_neg hp]
      rw [ih (i + 1)]
      have hpf : p i = false := Bool.eq_false_iff.mpr hp
      constructor
      · intro h q h1 h2
        by_cases hqi : q = i
        · subst hqi; exact hpf
        · exact h q (by omega) (by omega)
      · intro h q h1 h2
        exact h q (by omega) (by omega)

theorem pyFind_eq_some_iff (s sub : List Char) (stop p : Nat) :
    pyFind s sub stop = some p ↔
      (p + sub.length ≤ min stop s.length ∧ sub.isPrefixOf (s.drop p) = true ∧
       ∀ q, q < p → sub.isPrefixOf (s.drop q) = false) := by
  unfold pyFind
  rw [scanFind_eq_some_iff]
  constructor
  · rintro ⟨h1, h2, h3, h4⟩
    exact ⟨by omega, h3, fun q hq => h4 q (by omega) hq⟩
  · rintro ⟨h1, h2, h3⟩
    exact ⟨by omega, by omega, h2, fun q hq1 hq2 => h3 q hq2⟩

theorem pyFind_eq_none_iff (s sub : List Char) (stop : Nat) :
    pyFind s sub stop = none ↔
      ∀ q, q + sub.length ≤ min stop s.length → sub.isPrefixOf (s.drop q) = false := by
  unfold pyFind
  rw [scanFind_eq_none_iff]
  constructor
  · intro h q hq
    exact h q (by omega) (by omega)
  · intro h q h1 h2
    exact h q (by omega)

theorem occursWithinB_iff (s sub : List Char) (stop : Nat) :
    occursWithinB s sub stop = true ↔
      ∃ i, i + sub.length ≤ min stop s.length ∧ sub.isPrefixOf (s.drop i) = true := by
  unfold occursWithinB
  rw [List.any_eq_true]
  constructor
  · rintro ⟨i, hmem, hp⟩
    rw [Bool.and_eq_true] at hp
    exact ⟨i, by simpa using hp.1, hp.2⟩
  · rintro ⟨i, h1, h2⟩
    refine ⟨i, List.mem_range.mpr (by omega), ?_⟩
    rw [Bool.and_eq_true]
    exact ⟨by simpa using h1, h2⟩

theorem pyFind_none_of_not_occursWithin (s sub : List Char) (stop : Nat)
    (h : occursWithinB s sub stop = false) : pyFind s sub stop = none := by
  rw [pyFind_eq_none_iff]
  intro q hq
  cases hb : sub.isPrefixOf (s.drop q) with
  | false => rfl
  | true =>
    have : occursWithinB s sub stop = true := (occursWithinB_iff s sub stop).mpr ⟨q, hq, hb⟩
    rw [h] at this
    exact Bool.noConfusion this

/-! ### Claim C6: cruft removal window -/

theorem dropCruftAux_spec (d : List Char) :
    dropCruftAux d cruftPhrases =
      match pyFind d "has been fined".data 100 with
      | some p => some ("fined".data ++ d.drop (p + 14))
      | none =>
        match pyFind d "has been prosecuted".data 100 with
        | some p => some ("prosecuted".data ++ d.drop (p + 19))
        | none => none := rfl

theorem drop_initial_cruft_def (d : String) :
    drop_initial_cruft d =
      match dropCruftAux d.data cruftPhrases with
      | some l => String.mk l
      | none => d := rfl

set_option maxHeartbeats 4000000 in
/-- Claim C6 counterexample: in `cruftCexStr` the phrase `has been fined`
starts at index 90, inside the first 100 characters, yet the code leaves the
description unchanged (Python's `find(phrase, 0, 100)` requires the match to
lie entirely inside the slice, so it must END by index 100), contradicting
the claim that the step fires whenever the phrase merely starts there. -/
theorem claim6_counterexample :
    "has been fined".data.isPrefixOf (cruftCexStr.data.drop 90) = true ∧
    (90 : Nat) < 100 ∧
    drop_initial_cruft cruftCexStr = cruftCexStr ∧
    drop_initial_cruft cruftCexStr ≠ "fined today" := by
  refine ⟨by decide, by decide, by decide, by decide⟩

/-- Claim C6 (amended): the cruft-removal step fires exactly when `has been
fined` or `has been prosecuted` occurs ENTIRELY within the first 100
characters of the description (the occurrence must end at or before index
100, not merely start inside it).  When the fined phrase first occurs at
position `p` (entirely in the window), everything up to and including it is
replaced by `fined` with the remainder kept verbatim; otherwise, a
prosecuted occurrence is handled likewise with `prosecuted`; and with no
in-window occurrence of either phrase the description is unchanged. -/
theorem claim6_cruft_window (d : String) :
    (occursWithinB d.data "has been fined".data 100 = false →
     occursWithinB d.data "has been prosecuted".data 100 = false →
     drop_initial_cruft d = d) ∧
    (∀ p, "has been fined".data.isPrefixOf (d.data.drop p) = true →
       p + 14 ≤ min 100 d.data.length →
       (∀ q, q < p → "has been fined".data.isPrefixOf (d.data.drop q) = false) →
       drop_initial_cruft d = String.mk ("fined".data ++ d.data.drop (p + 14))) ∧
    (occursWithinB d.data "has been fined".data 100 = false →
     ∀ p, "has been prosecuted".data.isPrefixOf (d.data.drop p) = true →
       p + 19 ≤ min 100 d.data.length →
       (∀ q, q < p → "has been prosecuted".data.isPrefixOf (d.data.drop q) = false) →
       drop_initial_cruft d = String.mk ("prosecuted".data ++ d.data.drop (p + 19))) := by
  refine ⟨?_, ?_, ?_⟩
  · intro h1 h2
    have f1 := pyFind_none_of_not_occursWithin d.data "has been fined".data 100 h1
    have f2 := pyFind_none_of_not_occursWithin d.data "has been prosecuted".data 100 h2
    have hspec : dropCruftAux d.data cruftPhrases = none := by
      rw [dropCruftAux_spec d.data, f1, f2]
    rw [drop_initial_cruft_def d, hspec]
  · intro p hp hw hmin
    have hf : pyFind d.data "has been fined".data 100 = some p := by
      rw [pyFind_eq_some_iff]
      exact ⟨by simpa using hw, hp, hmin⟩
    have hspec : dropCruftAux d.data cruftPhrases =
        some ("fined".data ++ d.data.drop (p + 14)) := by
      rw [dropCruftAux_spec d.data, hf]
    rw [drop_initial_cruft_def d, hspec]
  · intro h1 p hp hw hmin
    have f1 := pyFind_none_of_not_occursWithin d.data "has been fined".data 100 h1
    have hf : pyFind d.data "has been prosecuted".data 100 = some p := by
      rw [pyFind_eq_some_iff]
      exact ⟨by simpa using hw, hp, hmin⟩
    have hspec : dropCruftAux d.data cruftPhrases =
        some ("prosecuted".data ++ d.data.drop (p + 19)) := by
      rw [dropCruftAux_spec d.data, f1, hf]
    rw [drop_initial_cruft_def d, hspec]

/-- Claim C6 witness: on `x has been fined y z` the phrase occurs fully in
the window at position 2, and the step yields `fined y z`. -/
theorem claim6_witness :
    drop_initial_cruft "x has been fined y z" =
      String.mk ("fined".data ++ "x has been fined y z".data.drop 16) :=
  (claim6_cruft_window "x has been fined y z").2.1 2 (by decide) (by decide)
    (by decide)

/-! ### Claim C3: PDF link extraction policy -/

theorem parse_pdf_url_def (anchors : List String) :
    parse_pdf_url anchors =
      match anchors.filter matchesPdfPattern with
      | [] => Except.ok none
      | [href] => Except.ok (some (expand_href href))
      | _ => Except.error ExtractionErr.ambiguity := rfl

/-- Claim C3: zero matching anchors give an absent pdf url with no error;
exactly one gives that anchor's href, prefixed with the base origin exactly
when it starts with `/`; two or more give the `ExtractionAmbiguity` failure
rather than a silent pick. -/
theorem claim3_pdf_link_policy (anchors : List String) :
    (anchors.filter matchesPdfPattern = [] → parse_pdf_url anchors = Except.ok none) ∧
    (∀ h, anchors.filter matchesPdfPattern = [h] →
      parse_pdf_url anchors = Except.ok (some (expand_href h)) ∧
      (h.data.head? = some '/' → expand_href h = BASE_URL ++ h) ∧
      (h.data.head? ≠ some '/' → expand_href h = h)) ∧
    (2 ≤ (anchors.filter matchesPdfPattern).length →
      parse_pdf_url anchors = Except.error ExtractionErr.ambiguity) := by
  refine ⟨?_, ?_, ?_⟩
  · intro hf
    rw [parse_pdf_url_def, hf]
  · intro h hf
    refine ⟨by rw [parse_pdf_url_def, hf], ?_, ?_⟩
    · intro hh
      unfold expand_href
      rw [hh]
      rfl
    · intro hh
      unfold expand_href
      have hb : (h.data.head? == some '/') = false := by
        simpa using hh
      rw [hb]
      rfl
  · intro hlen
    cases hl : anchors.filter matchesPdfPattern with
    | nil => rw [hl] at hlen; simp at hlen
    | cons a t =>
      cases t with
      | nil => rw [hl] at hlen; simp at hlen
      | cons b t2 => rw [parse_pdf_url_def, hl]

/-- Claim C3 witness: a page with one matching anchor (and one non-matching
one) yields that anchor's href absolutised against the base origin. -/
theorem claim3_witness :
    parse_pdf_url ["/media/action-weve-taken/mpns/2014/file.pdf", "/about/"] =
      Except.ok (some (expand_href "/media/action-weve-taken/mpns/2014/file.pdf")) :=
  ((claim3_pdf_link_policy ["/media/action-weve-taken/mpns/2014/file.pdf", "/about/"]).2.1
    "/media/action-weve-taken/mpns/2014/file.pdf" (by decide)).1

/-! ### Claim C4: penalty amount extraction -/

theorem findAmountsAux_cons (fuel : Nat) (c : Char) (cs : List Char) :
    findAmountsAux (fuel + 1) (c :: cs) =
      if c == '£' then
        match backtrackLen (cs.takeWhile digitsComma) (cs.dropWhile digitsComma) with
        | some k => String.mk ('£' :: (cs.takeWhile digitsComma).take k) ::
            findAmountsAux fuel ((cs.takeWhile digitsComma).drop k ++ cs.dropWhile digitsComma)
        | none => findAmountsAux fuel cs
      else findAmountsAux fuel cs := rfl

theorem findAmountsAux_mem :
    ∀ (fuel : Nat) (s : List Char) (m : String), m ∈ findAmountsAux fuel s →
      m.data <:+: s ∧ m.data.head? = some '£' := by
  intro fuel
  induction fuel with
  | zero =>
    intro s m hm
    exact absurd hm (by simp [findAmountsAux])
  | succ fuel ih =>
    intro s m hm
    cases s with
    | nil => exact absurd hm (by simp [findAmountsAux])
    | cons c cs =>
      rw [findAmountsAux_cons] at hm
      cases hc : (c == '£') with
      | false =>
        rw [hc] at hm
        simp only [Bool.false_eq_true, if_false] at hm
        obtain ⟨hinf, hh⟩ := ih cs m hm
        exact ⟨List.infix_cons hinf, hh⟩
      | true =>
        rw [hc] at hm
        simp only [if_true] at hm
        have hceq : c = '£' := by simpa using hc
        cases hb : backtrackLen (cs.takeWhile digitsComma) (cs.dropWhile digitsComma) with
        | none =>
          rw [hb] at hm
          obtain ⟨hinf, hh⟩ := ih cs m hm
          exact ⟨List.infix_cons hinf, hh⟩
        | some k =>
          rw [hb] at hm
          rcases List.mem_cons.mp hm with he | ht
          · subst he
            constructor
            · have hpre : ((cs.takeWhile digitsComma).take k) <+: cs :=
                (List.take_prefix k (cs.takeWhile digitsComma)).trans
                  (List.takeWhile_prefix digitsComma)
              obtain ⟨t, hts⟩ := hpre
              subst hceq
              have hpre2 : ('£' :: (cs.takeWhile digitsComma).take k) <+: ('£' :: cs) :=
                ⟨t, by rw [List.cons_append, hts]⟩
              exact hpre2.isInfix
            · rfl
          · obtain ⟨hinf, hh⟩ := ih _ m ht
            have hsuf : ((cs.takeWhile digitsComma).drop k ++ cs.dropWhile digitsComma) <:+ cs :=
              ⟨(cs.takeWhile digitsComma).take k, by
                rw [← List.append_assoc, List.take_append_drop,
                  List.takeWhile_append_dropWhile]⟩
            exact ⟨List.infix_cons (hinf.trans hsuf.isInfix), hh⟩

theorem parse_penalty_amount_def (d : String) :
    parse_penalty_amount (some d) =
      match findAmounts d with
      | [a] => some a
      | _ => none := rfl

/-- Claim C4: with exactly one `£`-prefixed digit-group match in the
description the penalty amount is that match verbatim (it is an infix of the
description starting with `£`); with zero or two or more matches it is
absent, and no error is raised (the function is total, `none` on a missing
description). -/
theorem claim4_penalty_amount (d : String) :
    (∀ a, findAmounts d = [a] → parse_penalty_amount (some d) = some a) ∧
    (findAmounts d = [] → parse_penalty_amount (some d) = none) ∧
    (2 ≤ (findAmounts d).length → parse_penalty_amount (some d) = none) ∧
    (∀ a, parse_penalty_amount (some d) = some a →
      a.data <:+: d.data ∧ a.data.head? = some '£') ∧
    parse_penalty_amount none = none := by
  refine ⟨?_, ?_, ?_, ?_, rfl⟩
  · intro a hf
    rw [parse_penalty_amount_def, hf]
  · intro hf
    rw [parse_penalty_amount_def, hf]
  · intro hlen
    cases hl : findAmounts d with
    | nil => rw [hl] at hlen; simp at hlen
    | cons a t =>
      cases t with
      | nil => rw [hl] at hlen; simp at hlen
      | cons b t2 => rw [parse_penalty_amount_def, hl]
  · intro a ha
    rw [parse_penalty_amount_def] at ha
    cases hl : findAmounts d with
    | nil => rw [hl] at ha; exact Option.noConfusion ha
    | cons x t =>
      cases t with
      | nil =>
        rw [hl] at ha
        have hax : x = a := by simpa using ha
        subst hax
        have hx : x ∈ findAmountsAux d.data.length d.data := by
          have : x ∈ findAmounts d := by rw [hl]; exact List.mem_singleton.mpr rfl
          exact this
        exact findAmountsAux_mem d.data.length d.data x hx
      | cons y t2 =>
        rw [hl] at ha
        simp at ha

set_option maxHeartbeats 4000000 in
/-- Claim C4 witness: the end-to-end scenario description yields exactly the
one match `£500,000` and the extractor returns it verbatim. -/
theorem claim4_witness :
    parse_penalty_amount
        (some "Acme Corp has been fined £500,000 for breaches of the Data Protection Act.") =
      some "£500,000" :=
  (claim4_penalty_amount
    "Acme Corp has been fined £500,000 for breaches of the Data Protection Act.").1
    "£500,000" (by decide)

/-! ### Claim C8: tweet composition -/

theorem make_tweet_def (description url : String) :
    make_tweet description url =
      String.mk
        ((if (if (replace description ICO_NAMES "@ICOnews").data.head? == some '@' then
              String.mk ('.' :: (replace description ICO_NAMES "@ICOnews").data)
            else replace description ICO_NAMES "@ICOnews").data.length ≤ 116 then
            (if (replace description ICO_NAMES "@ICOnews").data.head? == some '@' then
              String.mk ('.' :: (replace description ICO_NAMES "@ICOnews").data)
            else replace description ICO_NAMES "@ICOnews")
          else
            String.mk
              ((if (replace description ICO_NAMES "@ICOnews").data.head? == some '@' then
                String.mk ('.' :: (replace description ICO_NAMES "@ICOnews").data)
              else replace description ICO_NAMES "@ICOnews").data.take 115 ++ ['…'])).data
          ++ ' ' :: url.data) := rfl

/-- Claim C8: the composed post is the alias-substituted description `d0`,
dot-prefixed into `d1` whenever it begins with the alias token `@ICOnews`;
`d1` is kept intact when it fits the 140 - 23 - 1 = 116 character budget and
otherwise truncated to 115 characters plus an ellipsis (116 in total); the
url is appended in full after a space in either case. -/
theorem claim8_tweet_composition (description url : String) (d0 d1 : String)
    (hd0 : d0 = replace description ICO_NAMES "@ICOnews")
    (hd1 : d1 = if d0.data.head? == some '@' then String.mk ('.' :: d0.data) else d0) :
    ("@ICOnews".data.isPrefixOf d0.data = true → d1 = String.mk ('.' :: d0.data)) ∧
    (d1.data.length ≤ TWEET_LENGTH - SHORT_URL_LENGTH - 1 →
      make_tweet description url = String.mk (d1.data ++ ' ' :: url.data)) ∧
    (TWEET_LENGTH - SHORT_URL_LENGTH - 1 < d1.data.length →
      make_tweet description url =
        String.mk ((d1.data.take 115 ++ ['…']) ++ ' ' :: url.data) ∧
      (d1.data.take 115 ++ ['…']).length = TWEET_LENGTH - SHORT_URL_LENGTH - 1) := by
  subst hd0
  refine ⟨?_, ?_, ?_⟩
  · intro hpre
    rw [List.isPrefixOf_iff_prefix] at hpre
    obtain ⟨t, ht⟩ := hpre
    have hhead : (replace description ICO_NAMES "@ICOnews").data.head? = some '@' := by
      rw [← ht]
      rfl
    rw [hd1, hhead]
    rfl
  · intro hfit
    rw [make_tweet_def, ← hd1, if_pos (by exact hfit)]
  · intro hover
    have hlen : d1.data.length ≥ 117 := by
      have : TWEET_LENGTH - SHORT_URL_LENGTH - 1 = 116 := rfl
      omega
    constructor
    · rw [make_tweet_def, ← hd1, if_neg (by omega)]
    · have h116 : TWEET_LENGTH - SHORT_URL_LENGTH - 1 = 116 := rfl
      rw [h116, List.length_append, List.length_take]
      show min 115 d1.data.length + 1 = 116
      omega

/-- Claim C8 witness: a short clean description is kept intact and the url
is appended after a space. -/
theorem claim8_witness :
    make_tweet "Fined for nuisance calls" "http://u" =
      String.mk ("Fined for nuisance calls".data ++ ' ' :: "http://u".data) :=
  (claim8_tweet_composition "Fined for nuisance calls" "http://u"
    "Fined for nuisance calls" "Fined for nuisance calls" (by decide) (by decide)).2.1
    (by decide)

/-! ### Capitalisation lemmas -/

theorem char_toNat_ofNat_valid (m : Nat) (h : m.isValidChar) : (Char.ofNat m).toNat = m := by
  unfold Char.ofNat
  rw [dif_pos h]
  unfold Char.ofNatAux Char.toNat UInt32.toNat
  simp

theorem char_toUpper_eq (a : Char) :
    a.toUpper = if a.toNat ≥ 97 ∧ a.toNat ≤ 122 then Char.ofNat (a.toNat - 32) else a := rfl

theorem char_toUpper_idem (c : Char) : c.toUpper.toUpper = c.toUpper := by
  rw [char_toUpper_eq c]
  by_cases h : c.toNat ≥ 97 ∧ c.toNat ≤ 122
  · rw [if_pos h, char_toUpper_eq]
    have hv : (c.toNat - 32).isValidChar := Or.inl (by omega)
    have ht : (Char.ofNat (c.toNat - 32)).toNat = c.toNat - 32 :=
      char_toNat_ofNat_valid _ hv
    rw [if_neg (by rw [ht]; omega)]
  · rw [if_neg h, char_toUpper_eq, if_neg h]

theorem string_data_ne_nil {s : String} (h : s ≠ "") : s.data ≠ [] := by
  intro he
  exact h (String.ext (by rw [he]))

theorem capitalize_eq_capHead (s : String) (h : s.data ≠ []) :
    capitalize s = some (capHead s) := by
  cases s with
  | mk l =>
    cases l with
    | nil => exact absurd rfl h
    | cons c cs => rfl

theorem capHead_data_ne_nil (s : String) (h : s.data ≠ []) : (capHead s).data ≠ [] := by
  cases s with
  | mk l =>
    cases l with
    | nil => exact absurd rfl h
    | cons c cs =>
      show (String.mk (c.toUpper :: cs)).data ≠ []
      simp

theorem capHead_idem (s : String) : capHead (capHead s) = capHead s := by
  cases s with
  | mk l =>
    cases l with
    | nil => rfl
    | cons c cs =>
      show String.mk (c.toUpper.toUpper :: cs) = String.mk (c.toUpper :: cs)
      rw [char_toUpper_idem]

/-! ### The abbreviation pipeline on clean input -/

theorem abbreviate_description_some_eq (d : String) :
    abbreviate_description (some d) =
      capWrap (capitalize (replace (replace (replace (drop_initial_cruft d)
        ICO_NAMES "the ICO") TPS_NAMES "TPS") PECR_NAMES "PECR")) := rfl

theorem abbreviate_description_eq_of_capitalize (d y : String)
    (hc : capitalize (replace (replace (replace (drop_initial_cruft d)
        ICO_NAMES "the ICO") TPS_NAMES "TPS") PECR_NAMES "PECR") = some y) :
    abbreviate_description (some d) = Except.ok (some y) := by
  rw [abbreviate_description_some_eq, hc]
  rfl

theorem drop_initial_cruft_of_clean (x : String)
    (h1 : strContains x "has been fined" = false)
    (h2 : strContains x "has been prosecuted" = false) :
    drop_initial_cruft x = x := by
  have f1 : pyFind x.data "has been fined".data 100 = none := by
    rw [pyFind_eq_none_iff]
    intro q _
    exact strContains_all_drops (by decide) h1 q
  have f2 : pyFind x.data "has been prosecuted".data 100 = none := by
    rw [pyFind_eq_none_iff]
    intro q _
    exact strContains_all_drops (by decide) h2 q
  have hspec : dropCruftAux x.data cruftPhrases = none := by
    rw [dropCruftAux_spec x.data, f1, f2]
  rw [drop_initial_cruft_def x, hspec]

theorem abbreviate_of_clean (x : String) (hx0 : x.data ≠ [])
    (hx : ∀ n ∈ triggerStrings, strContains x n = false) :
    abbreviate_description (some x) = Except.ok (some (capHead x)) := by
  have hneIco : ∀ n ∈ ICO_NAMES, n.data ≠ [] := by decide
  have hneTps : ∀ n ∈ TPS_NAMES, n.data ≠ [] := by decide
  have hnePecr : ∀ n ∈ PECR_NAMES, n.data ≠ [] := by decide
  have hico : replace x ICO_NAMES "the ICO" = x := by
    apply replace_self_of_not_contains
    intro n hn
    exact ⟨hneIco n hn, hx n (by simp only [triggerStrings, List.mem_append]; tauto)⟩
  have htps : replace x TPS_NAMES "TPS" = x := by
    apply replace_self_of_not_contains
    intro n hn
    exact ⟨hneTps n hn, hx n (by simp only [triggerStrings, List.mem_append]; tauto)⟩
  have hpecr : replace x PECR_NAMES "PECR" = x := by
    apply replace_self_of_not_contains
    intro n hn
    exact ⟨hnePecr n hn, hx n (by simp only [triggerStrings, List.mem_append]; tauto)⟩
  have hcruft : drop_initial_cruft x = x :=
    drop_initial_cruft_of_clean x
      (hx "has been fined" (by simp only [triggerStrings, List.mem_append]; tauto))
      (hx "has been prosecuted" (by simp only [triggerStrings, List.mem_append]; tauto))
  apply abbreviate_description_eq_of_capitalize
  rw [hcruft, hico, htps, hpecr]
  exact capitalize_eq_capHead x hx0

/-! ### Claim C9: summarizer idempotence -/

set_option maxHeartbeats 4000000 in
/-- Claim C9 counterexample: `telephone Preference Service calls` is
non-empty and contains none of the trigger phrases or names, yet the
Summarizer is not idempotent on it: the capitalisation step creates the
name `Telephone Preference Service`, so a second pass collapses it to
`TPS calls`. -/
theorem claim9_counterexample :
    ("telephone Preference Service calls" : String) ≠ "" ∧
    (∀ n ∈ triggerStrings, strContains "telephone Preference Service calls" n = false) ∧
    abbreviate_description (some "telephone Preference Service calls") =
      Except.ok (some "Telephone Preference Service calls") ∧
    abbreviate_description (some "Telephone Preference Service calls") =
      Except.ok (some "TPS calls") ∧
    ("TPS calls" : String) ≠ "Telephone Preference Service calls" := by
  refine ⟨by decide, by decide, rfl, rfl, by decide⟩

/-- Claim C9 (amended): the Summarizer is idempotent on non-empty
descriptions `x` such that both `x` AND its first-letter-capitalised form
contain none of the cruft phrases, organisation-name variants, service names
or regulation names.  (The extra condition on the capitalised form is
forced: capitalising the first character can itself create a recognised
name, as the counterexample shows.) -/
theorem claim9_summarizer_idempotent (x : String) (hx0 : x ≠ "")
    (hx : ∀ n ∈ triggerStrings, strContains x n = false)
    (hy : ∀ n ∈ triggerStrings, strContains (capHead x) n = false) :
    abbreviate_description (some x) = Except.ok (some (capHead x)) ∧
    abbreviate_description (some (capHead x)) = Except.ok (some (capHead x)) := by
  have hd0 : x.data ≠ [] := string_data_ne_nil hx0
  constructor
  · exact abbreviate_of_clean x hd0 hx
  · have := abbreviate_of_clean (capHead x) (capHead_data_ne_nil x hd0) hy
    rw [capHead_idem] at this
    exact this

/-- Claim C9 witness: the amended idempotence on a clean concrete
description. -/
theorem claim9_witness :
    abbreviate_description (some "guilty of nuisance calls") =
      Except.ok (some (capHead "guilty of nuisance calls")) ∧
    abbreviate_description (some (capHead "guilty of nuisance calls")) =
      Except.ok (some (capHead "guilty of nuisance calls")) :=
  claim9_summarizer_idempotent "guilty of nuisance calls" (by decide) (by decide)
    (by decide)

/-! ### Claim C10: partiality at the empty description -/

theorem drop_initial_cruft_data_ne_nil (d : String) (h : d.data ≠ []) :
    (drop_initial_cruft d).data ≠ [] := by
  rw [drop_initial_cruft_def]
  have hs := dropCruftAux_spec d.data
  cases hf : pyFind d.data "has been fined".data 100 with
  | some p =>
    rw [hf] at hs
    rw [hs]
    simp
  | none =>
    rw [hf] at hs
    cases hg : pyFind d.data "has been prosecuted".data 100 with
    | some p =>
      rw [hg] at hs
      rw [hs]
      simp
    | none =>
      rw [hg] at hs
      rw [hs]
      exact h

/-- Claim C10: the abbreviation pipeline fails on the empty description
(`capitalize` indexes the first character unconditionally), is total on
non-empty descriptions, and passes an absent description through. -/
theorem claim10_empty_description_partial :
    abbreviate_description (some "") = Except.error () ∧
    (∀ d : String, d ≠ "" → ∃ y, abbreviate_description (some d) = Except.ok (some y)) ∧
    abbreviate_description none = Except.ok none := by
  refine ⟨rfl, ?_, rfl⟩
  intro d hd
  have h1 : (drop_initial_cruft d).data ≠ [] :=
    drop_initial_cruft_data_ne_nil d (string_data_ne_nil hd)
  have h2 : (replace (drop_initial_cruft d) ICO_NAMES "the ICO").data ≠ [] :=
    replace_data_ne_nil _ _ _ h1 (by decide)
  have h3 : (replace (replace (drop_initial_cruft d) ICO_NAMES "the ICO")
      TPS_NAMES "TPS").data ≠ [] :=
    replace_data_ne_nil _ _ _ h2 (by decide)
  have h4 : (replace (replace (replace (drop_initial_cruft d) ICO_NAMES "the ICO")
      TPS_NAMES "TPS") PECR_NAMES "PECR").data ≠ [] :=
    replace_data_ne_nil _ _ _ h3 (by decide)
  refine ⟨capHead (replace (replace (replace (drop_initial_cruft d) ICO_NAMES "the ICO")
      TPS_NAMES "TPS") PECR_NAMES "PECR"), ?_⟩
  exact abbreviate_description_eq_of_capitalize d _ (capitalize_eq_capHead _ h4)

/-- Claim C10 witness: the pipeline succeeds on a concrete non-empty
description. -/
theorem claim10_witness :
    ∃ y, abbreviate_description (some "x") = Except.ok (some y) :=
  claim10_empty_description_partial.2.1 "x" (by decide)

/-! ### Claim C1: tweet_sent monotonicity across re-extraction -/

theorem findSent_true_of_sent (store : List Record) (u : String)
    (h : ∃ s ∈ store, s.url = u ∧ s.tweet_sent = true) : findSent store u = true := by
  obtain ⟨s, hs, hurl, hsent⟩ := h
  unfold findSent
  have : ∃ x, x ∈ store ∧ ((fun s => s.url == u && s.tweet_sent) x = true) :=
    ⟨s, hs, by show (s.url == u && s.tweet_sent) = true; rw [hurl, hsent]; simp⟩
  exact List.find?_isSome.mpr this

theorem scrapeStep_preserves_sent (store : List Record) (row : Row) (u : String)
    (h : ∃ s ∈ store, s.url = u ∧ s.tweet_sent = true) :
    ∃ s2 ∈ scrapeStep store row, s2.url = u ∧ s2.tweet_sent = true := by
  obtain ⟨s, hs, hurl, hsent⟩ := h
  unfold scrapeStep upsert
  by_cases hru : row.url = u
  · have hfind : findSent store row.url = true :=
      findSent_true_of_sent store row.url ⟨s, hs, by rw [hurl, hru], hsent⟩
    rw [hfind]
    have hany : (store.any fun x => x.url == (row.withSent true).url) = true := by
      rw [List.any_eq_true]
      exact ⟨s, hs, by show (s.url == row.url) = true; rw [hurl, hru]; simp⟩
    rw [if_pos hany]
    refine ⟨row.withSent true, List.mem_map.mpr ⟨s, hs, ?_⟩, hru, rfl⟩
    rw [if_pos (by show (s.url == row.url) = true; rw [hurl, hru]; simp)]
  · refine ⟨s, ?_, hurl, hsent⟩
    by_cases hany : (store.any fun x =>
        x.url == (row.withSent (findSent store row.url)).url) = true
    · rw [if_pos hany]
      refine List.mem_map.mpr ⟨s, hs, ?_⟩
      rw [if_neg]
      show ¬(s.url == row.url) = true
      simp only [beq_iff_eq]
      rw [hurl]
      exact fun e => hru e.symm
    · rw [if_neg hany]
      exact List.mem_append_left _ hs

/-- Claim C1: `tweet_sent` is monotonic across re-extraction.  Re-upserting a
freshly extracted row for a url whose stored record is already marked sent
reads the stored flag just before the upsert and keeps `tweet_sent = true`
regardless of the row's other field values; and across a whole
`scrape_enforcements` pass, a url once marked sent always still has a sent
record — the flag never reverts from true to false. -/
theorem claim1_tweet_sent_monotonic :
    (∀ (store : List Record) (row : Row),
      (∃ s ∈ store, s.url = row.url ∧ s.tweet_sent = true) →
      ∀ s2 ∈ scrapeStep store row, s2.url = row.url → s2.tweet_sent = true) ∧
    (∀ (store : List Record) (rows : List Row) (u : String),
      (∃ s ∈ store, s.url = u ∧ s.tweet_sent = true) →
      ∃ s2 ∈ scrape_enforcements store rows, s2.url = u ∧ s2.tweet_sent = true) := by
  constructor
  · intro store row h s2 hs2 hs2url
    have hfind : findSent store row.url = true := by
      obtain ⟨s, hs, hurl, hsent⟩ := h
      exact findSent_true_of_sent store row.url ⟨s, hs, hurl, hsent⟩
    obtain ⟨s, hs, hurl, hsent⟩ := h
    unfold scrapeStep upsert at hs2
    rw [hfind] at hs2
    have hany : (store.any fun x => x.url == (row.withSent true).url) = true := by
      rw [List.any_eq_true]
      exact ⟨s, hs, by show (s.url == row.url) = true; rw [hurl]; simp⟩
    rw [if_pos hany] at hs2
    obtain ⟨x, hx, hfx⟩ := List.mem_map.mp hs2
    by_cases hxu : (x.url == (row.withSent true).url) = true
    · rw [if_pos hxu] at hfx
      rw [← hfx]
      rfl
    · rw [if_neg hxu] at hfx
      exfalso
      apply hxu
      show (x.url == row.url) = true
      rw [hfx, hs2url]
      simp
  · intro store rows u h
    induction rows generalizing store with
    | nil => exact h
    | cons row rest ih =>
      show ∃ s2 ∈ List.foldl scrapeStep (scrapeStep store row) rest,
        s2.url = u ∧ s2.tweet_sent = true
      exact ih (scrapeStep store row) (scrapeStep_preserves_sent store row u h)

/-- Claim C1 witness: a store holding a sent record for a url, re-scraped
with a row for the same url whose other fields all changed, still holds a
sent record for that url. -/
theorem claim1_witness :
    ∃ s2 ∈ scrape_enforcements [sentRecord] [freshRow],
      s2.url = sentRecord.url ∧ s2.tweet_sent = true :=
  claim1_tweet_sent_monotonic.2 [sentRecord] [freshRow] sentRecord.url
    ⟨sentRecord, List.mem_singleton.mpr rfl, rfl, rfl⟩

/-! ### Claim C2: per-record publish transactions -/

theorem tweet_untweeted_shift (items : List (Record × Bool)) :
    ∀ (store : List Record) (n : Nat),
      items.foldl tweetStep (store, n) =
        ((items.foldl tweetStep (store, 0)).1, (items.foldl tweetStep (store, 0)).2 + n) := by
  induction items with
  | nil => intro store n; simp
  | cons it rest ih =>
    intro store n
    obtain ⟨r, b⟩ := it
    cases b with
    | true =>
      show rest.foldl tweetStep (upsert store (markSent r), n) = _
      rw [ih (upsert store (markSent r)) n]
      show _ = ((rest.foldl tweetStep (upsert store (markSent r), 0)).1,
        (rest.foldl tweetStep (upsert store (markSent r), 0)).2 + n)
      rfl
    | false =>
      show rest.foldl tweetStep (store, n + 1) = _
      rw [ih store (n + 1)]
      show _ = ((rest.foldl tweetStep (store, 1)).1, (rest.foldl tweetStep (store, 1)).2 + n)
      rw [ih store 1]
      refine congrArg _ ?_
      omega

theorem tweet_untweeted_count (items : List (Record × Bool)) :
    ∀ store : List Record,
      (tweet_untweeted store items).2 = (items.filter (fun it => !it.2)).length := by
  induction items with
  | nil => intro store; rfl
  | cons it rest ih =>
    intro store
    obtain ⟨r, b⟩ := it
    cases b with
    | true =>
      show (tweet_untweeted (upsert store (markSent r)) rest).2 = _
      rw [ih (upsert store (markSent r))]
      rfl
    | false =>
      show (rest.foldl tweetStep (store, 1)).2 = _
      rw [tweet_untweeted_shift rest store 1]
      show (tweet_untweeted store rest).2 + 1 = _
      rw [ih store]
      rfl

theorem tweet_untweeted_store (items : List (Record × Bool)) :
    ∀ store : List Record,
      (tweet_untweeted store items).1 =
        (items.filter (fun it => it.2)).foldl (fun st it => upsert st (markSent it.1)) store := by
  induction items with
  | nil => intro store; rfl
  | cons it rest ih =>
    intro store
    obtain ⟨r, b⟩ := it
    cases b with
    | true =>
      show (tweet_untweeted (upsert store (markSent r)) rest).1 = _
      rw [ih (upsert store (markSent r))]
      rfl
    | false =>
      show (rest.foldl tweetStep (store, 1)).1 = _
      rw [tweet_untweeted_shift rest store 1]
      show (tweet_untweeted store rest).1 = _
      rw [ih store]
      rfl

/-- Claim C2: per-record transactional publishing.  A failed publish attempt
rolls back its record's transaction — the committed store is exactly the one
the remaining records start from (the record stays unchanged, so an unsent
record stays unsent) — and adds exactly one to the failure count; a
successful attempt commits the record marked `tweet_sent = true`, upserted
by url, in its own transactional unit before the next record is processed.
Failures never abort the batch: the final failure count is the number of
failed attempts and the final store reflects every successful record. -/
theorem claim2_publish_failure_isolated (store : List Record)
    (items : List (Record × Bool)) (r : Record) :
    (tweet_untweeted store ((r, false) :: items) =
      ((tweet_untweeted store items).1, (tweet_untweeted store items).2 + 1)) ∧
    (tweet_untweeted store ((r, true) :: items) =
      tweet_untweeted (upsert store (markSent r)) items) ∧
    ((markSent r).tweet_sent = true) ∧
    ((tweet_untweeted store items).2 = (items.filter (fun it => !it.2)).length) ∧
    ((tweet_untweeted store items).1 =
      (items.filter (fun it => it.2)).foldl (fun st it => upsert st (markSent it.1)) store) := by
  refine ⟨?_, rfl, rfl, tweet_untweeted_count items store, tweet_untweeted_store items store⟩
  show items.foldl tweetStep (store, 1) = _
  rw [tweet_untweeted_shift items store 1]
  rfl

/-! ### Claim C7: the publish selector -/

theorem filterRecent_sublist (cutoff : Int) :
    ∀ (l out : List Record), filterRecent cutoff l = Except.ok out →
      List.Sublist out l := by
  intro l
  induction l with
  | nil =>
    intro out h
    injection h with h
    rw [← h]
  | cons r rs ih =>
    intro out h
    unfold filterRecent at h
    cases hd : r.date with
    | none => rw [hd] at h; cases h
    | some d =>
      rw [hd] at h
      cases hrec : filterRecent cutoff rs with
      | error e => rw [hrec] at h; cases h
      | ok rest =>
        rw [hrec] at h
        injection h with h
        rw [← h]
        by_cases hc : cutoff ≤ d
        · rw [if_pos hc]
          exact (ih rest hrec).cons₂ r
        · rw [if_neg hc]
          exact (ih rest hrec).cons r

theorem filterRecent_mem_props (cutoff : Int) :
    ∀ (l out : List Record), filterRecent cutoff l = Except.ok out →
      ∀ r ∈ out, ∃ d, r.date = some d ∧ cutoff ≤ d := by
  intro l
  induction l with
  | nil =>
    intro out h r hr
    injection h with h
    rw [← h] at hr
    cases hr
  | cons x rs ih =>
    intro out h r hr
    unfold filterRecent at h
    cases hd : x.date with
    | none => rw [hd] at h; cases h
    | some d =>
      rw [hd] at h
      cases hrec : filterRecent cutoff rs with
      | error e => rw [hrec] at h; cases h
      | ok rest =>
        rw [hrec] at h
        injection h with h
        rw [← h] at hr
        by_cases hc : cutoff ≤ d
        · rw [if_pos hc] at hr
          rcases List.mem_cons.mp hr with he | ht
          · rw [he]
            exact ⟨d, hd, hc⟩
          · exact ih rest hrec r ht
        · rw [if_neg hc] at hr
          exact ih rest hrec r hr

theorem filterRecent_mem_of (cutoff : Int) :
    ∀ (l out : List Record), filterRecent cutoff l = Except.ok out →
      ∀ r ∈ l, ∀ d, r.date = some d → cutoff ≤ d → r ∈ out := by
  intro l
  induction l with
  | nil =>
    intro out h r hr
    cases hr
  | cons x rs ih =>
    intro out h r hr d hrd hcd
    unfold filterRecent at h
    cases hd : x.date with
    | none => rw [hd] at h; cases h
    | some d2 =>
      rw [hd] at h
      cases hrec : filterRecent cutoff rs with
      | error e => rw [hrec] at h; cases h
      | ok rest =>
        rw [hrec] at h
        injection h with h
        rw [← h]
        rcases List.mem_cons.mp hr with he | ht
        · have hdd : d2 = d := by
            rw [he] at hrd
            rw [hd] at hrd
            injection hrd
          rw [if_pos (by rw [hdd]; exact hcd)]
          rw [he]
          exact List.mem_cons_self x rest
        · by_cases hc : cutoff ≤ d2
          · rw [if_pos hc]
            exact List.mem_cons_of_mem x (ih rest hrec r ht d hrd hcd)
          · rw [if_neg hc]
            exact ih rest hrec r ht d hrd hcd

/-- Claim C7: every record returned by the publish selector is unsent and
dated at most fourteen days before today (a record dated exactly fourteen
days ago is included), and the returned sequence is ascending in date. -/
theorem claim7_publish_selector (today : Int) (store : List Record) (out : List Record)
    (h : get_untweeted today store = Except.ok out) :
    (∀ r ∈ out, r.tweet_sent = false ∧ ∃ d, r.date = some d ∧ today - 14 ≤ d) ∧
    (∀ r ∈ store, r.tweet_sent = false → r.date = some (today - 14) → r ∈ out) ∧
    List.Pairwise recOrder out := by
  unfold get_untweeted at h
  have hsub : List.Sublist out
      (List.insertionSort recOrder (store.filter (fun r => !r.tweet_sent))) :=
    filterRecent_sublist _ _ out h
  refine ⟨?_, ?_, ?_⟩
  · intro r hr
    have hrl : r ∈ List.insertionSort recOrder (store.filter (fun r => !r.tweet_sent)) :=
      hsub.subset hr
    have hrf : r ∈ store.filter (fun r => !r.tweet_sent) :=
      (List.perm_insertionSort recOrder _).mem_iff.mp hrl
    have hsent : r.tweet_sent = false := by
      have := (List.mem_filter.mp hrf).2
      simpa using this
    exact ⟨hsent, filterRecent_mem_props _ _ out h r hr⟩
  · intro r hr hsent hdate
    have hrf : r ∈ store.filter (fun r => !r.tweet_sent) :=
      List.mem_filter.mpr ⟨hr, by simp [hsent]⟩
    have hrl : r ∈ List.insertionSort recOrder (store.filter (fun r => !r.tweet_sent)) :=
      (List.perm_insertionSort recOrder _).mem_iff.mpr hrf
    exact filterRecent_mem_of _ _ out h r hrl (today - 14) hdate (le_refl _)
  · have hsorted : List.Pairwise recOrder
        (List.insertionSort recOrder (store.filter (fun r => !r.tweet_sent))) :=
      List.sorted_insertionSort recOrder _
    exact List.Pairwise.sublist hsub hsorted

/-- Claim C7 witness: at day 20 over a store holding a sent record, an
unsent record dated day 6 (exactly fourteen days ago) and an unsent record
dated day 1, the selector returns exactly the day-6 record, and all three
claimed properties hold of the output. -/
theorem claim7_witness :
    (∀ r ∈ [recentRecord], r.tweet_sent = false ∧ ∃ d, r.date = some d ∧ 20 - 14 ≤ d) ∧
    (∀ r ∈ selectorStore, r.tweet_sent = false → r.date = some (20 - 14) →
      r ∈ [recentRecord]) ∧
    List.Pairwise recOrder [recentRecord] :=
  claim7_publish_selector 20 selectorStore [recentRecord] rfl
